import Mathlib

/-
Shallow embedding of the EMSManager2 repository (src/app.py, src/data_manager.py),
a Flask CRUD application over JSON-file collections. Each persisted collection is
modelled as a Lean list of records; each route handler that mutates a collection
is modelled as a pure function from the collection (plus the stripped form
fields) to the resulting collection. Machine dates (datetime.now(), timedelta
arithmetic, strftime "%Y-%m-%d") are modelled by day ordinals (Int, epoch
1970-01-01 = 0) together with an executable proleptic-Gregorian civil-date
conversion and zero-padded decimal formatting, mirroring the CPython behaviour.
-/

set_option maxHeartbeats 1000000

/-- Employee record: src/app.py add_employee builds dicts with keys
code, name, phone, role. -/
structure Employee where
  code : String
  name : String
  phone : String
  role : String
deriving DecidableEq, Repr

/-- Ambulance record: plate, model, status, last_service, notes
(src/app.py add_ambulance). -/
structure Ambulance where
  plate : String
  model : String
  status : String
  last_service : String
  notes : String
deriving DecidableEq, Repr

/-- Shift record: date, period, employee_code, sector, chief_name
(src/app.py add_shift). -/
structure Shift where
  date : String
  period : String
  employee_code : String
  sector : String
  chief_name : String
deriving DecidableEq, Repr

/-- Team record: date, morning_teams, evening_teams, full_teams, notes
(src/app.py add_team). -/
structure Team where
  date : String
  morning_teams : String
  evening_teams : String
  full_teams : String
  notes : String
deriving DecidableEq, Repr

/-- SupportTask record: employee_name, task_description, supervisor_name,
created_at, updated_at (src/app.py add_task / edit_task). -/
structure SupportTask where
  employee_name : String
  task_description : String
  supervisor_name : String
  created_at : String
  updated_at : String
deriving DecidableEq, Repr

/-- Outcome of reading and JSON-decoding one collection file.
`fileMissing` models FileNotFoundError, `undecodable` models
json.JSONDecodeError; both are caught by DataManager._load_json. -/
inductive ReadOutcome (α : Type) where
  | success (records : List α)
  | fileMissing
  | undecodable
deriving DecidableEq

/-- The five collection files of DataManager, each as a read outcome. -/
structure StoreState where
  employees_file : ReadOutcome Employee
  ambulances_file : ReadOutcome Ambulance
  shifts_file : ReadOutcome Shift
  teams_file : ReadOutcome Team
  tasks_file : ReadOutcome SupportTask

namespace DataManager

/-- DataManager._load_json: returns the decoded list, or [] when the file is
missing or its content is undecodable (both exceptions are caught). -/
def load_json {α : Type} : ReadOutcome α → List α
  | .success l => l
  | .fileMissing => []
  | .undecodable => []

/-- DataManager.get_employees = _load_json(employees_file). -/
def get_employees (st : StoreState) : List Employee := load_json st.employees_file

/-- DataManager.get_ambulances = _load_json(ambulances_file). -/
def get_ambulances (st : StoreState) : List Ambulance := load_json st.ambulances_file

/-- DataManager.get_shifts = _load_json(shifts_file). -/
def get_shifts (st : StoreState) : List Shift := load_json st.shifts_file

/-- DataManager.get_teams = _load_json(teams_file). -/
def get_teams (st : StoreState) : List Team := load_json st.teams_file

/-- DataManager.get_tasks = _load_json(tasks_file). -/
def get_tasks (st : StoreState) : List SupportTask := load_json st.tasks_file

/-- DataManager.add_employee: append. -/
def add_employee (employees : List Employee) (employee : Employee) : List Employee :=
  employees ++ [employee]

/-- DataManager.update_employee: replace the first record whose code matches
(the Python loop breaks after the first hit); no-op when no code matches. -/
def update_employee : List Employee → String → Employee → List Employee
  | [], _, _ => []
  | emp :: rest, code, employee =>
      if emp.code = code then employee :: rest
      else emp :: update_employee rest code employee

/-- DataManager.delete_employee: keep exactly the records whose code differs. -/
def delete_employee (employees : List Employee) (code : String) : List Employee :=
  employees.filter (fun emp => emp.code ≠ code)

/-- DataManager.add_ambulance: append. -/
def add_ambulance (ambulances : List Ambulance) (ambulance : Ambulance) : List Ambulance :=
  ambulances ++ [ambulance]

/-- DataManager.update_ambulance: replace the first record whose plate matches. -/
def update_ambulance : List Ambulance → String → Ambulance → List Ambulance
  | [], _, _ => []
  | amb :: rest, plate, ambulance =>
      if amb.plate = plate then ambulance :: rest
      else amb :: update_ambulance rest plate ambulance

/-- DataManager.delete_ambulance: keep exactly the records whose plate differs. -/
def delete_ambulance (ambulances : List Ambulance) (plate : String) : List Ambulance :=
  ambulances.filter (fun amb => amb.plate ≠ plate)

/-- DataManager.add_shift: append. -/
def add_shift (shifts : List Shift) (shift : Shift) : List Shift :=
  shifts ++ [shift]

/-- DataManager.update_shift: in-range positional write, silent no-op otherwise
(`if 0 <= shift_id < len(shifts)`). -/
def update_shift (shifts : List Shift) (shift_id : Int) (shift : Shift) : List Shift :=
  if 0 ≤ shift_id ∧ shift_id < (shifts.length : Int) then
    shifts.set shift_id.toNat shift
  else shifts

/-- DataManager.delete_shift: in-range positional pop, silent no-op otherwise. -/
def delete_shift (shifts : List Shift) (shift_id : Int) : List Shift :=
  if 0 ≤ shift_id ∧ shift_id < (shifts.length : Int) then
    shifts.eraseIdx shift_id.toNat
  else shifts

/-- DataManager.add_team: append. -/
def add_team (teams : List Team) (team : Team) : List Team :=
  teams ++ [team]

/-- DataManager.update_team: in-range positional write, silent no-op otherwise. -/
def update_team (teams : List Team) (team_id : Int) (team : Team) : List Team :=
  if 0 ≤ team_id ∧ team_id < (teams.length : Int) then
    teams.set team_id.toNat team
  else teams

/-- DataManager.delete_team: in-range positional pop, silent no-op otherwise. -/
def delete_team (teams : List Team) (team_id : Int) : List Team :=
  if 0 ≤ team_id ∧ team_id < (teams.length : Int) then
    teams.eraseIdx team_id.toNat
  else teams

/-- DataManager.add_task: append. -/
def add_task (tasks : List SupportTask) (task : SupportTask) : List SupportTask :=
  tasks ++ [task]

/-- DataManager.update_task: in-range positional write, silent no-op otherwise. -/
def update_task (tasks : List SupportTask) (task_id : Int) (task : SupportTask) : List SupportTask :=
  if 0 ≤ task_id ∧ task_id < (tasks.length : Int) then
    tasks.set task_id.toNat task
  else tasks

/-- DataManager.delete_task: in-range positional pop, silent no-op otherwise. -/
def delete_task (tasks : List SupportTask) (task_id : Int) : List SupportTask :=
  if 0 ≤ task_id ∧ task_id < (tasks.length : Int) then
    tasks.eraseIdx task_id.toNat
  else tasks

end DataManager

namespace App

/-- Route /employees/add: reject when any stripped field is empty
(`not all([...])`), reject when the code already exists (linear `any` scan),
otherwise append. Returns the resulting employee collection. -/
def add_employee (employees : List Employee) (code name phone role : String) :
    List Employee :=
  if code = "" ∨ name = "" ∨ phone = "" ∨ role = "" then employees
  else if employees.any (fun emp => emp.code = code) then employees
  else DataManager.add_employee employees ⟨code, name, phone, role⟩

/-- Route /employees/edit/<code>: reject when a required field is empty, else
replace the first record with that code by a record carrying the same code
(the code comes from the URL path and is put back into the record). -/
def edit_employee (employees : List Employee) (code name phone role : String) :
    List Employee :=
  if name = "" ∨ phone = "" ∨ role = "" then employees
  else DataManager.update_employee employees code ⟨code, name, phone, role⟩

/-- Route /ambulances/add: required plate/model/status, duplicate-plate scan,
else append. -/
def add_ambulance (ambulances : List Ambulance)
    (plate model status last_service notes : String) : List Ambulance :=
  if plate = "" ∨ model = "" ∨ status = "" then ambulances
  else if ambulances.any (fun amb => amb.plate = plate) then ambulances
  else DataManager.add_ambulance ambulances ⟨plate, model, status, last_service, notes⟩

/-- Route /ambulances/edit/<plate>: required model/status, else replace the
first record carrying that plate by a record with the same plate. -/
def edit_ambulance (ambulances : List Ambulance)
    (plate model status last_service notes : String) : List Ambulance :=
  if model = "" ∨ status = "" then ambulances
  else DataManager.update_ambulance ambulances plate ⟨plate, model, status, last_service, notes⟩

/-- Route /shifts/add: required date/period/employee_code/sector; aborts with a
flash message when the employee code matches no employee; else append. -/
def add_shift (employees : List Employee) (shifts : List Shift)
    (date period employee_code sector chief_name : String) : List Shift :=
  if date = "" ∨ period = "" ∨ employee_code = "" ∨ sector = "" then shifts
  else if employees.any (fun emp => emp.code = employee_code) then
    DataManager.add_shift shifts ⟨date, period, employee_code, sector, chief_name⟩
  else shifts

/-- Route /shifts/edit/<shift_id>: same validation as add_shift, then
positional update. -/
def edit_shift (employees : List Employee) (shifts : List Shift) (shift_id : Int)
    (date period employee_code sector chief_name : String) : List Shift :=
  if date = "" ∨ period = "" ∨ employee_code = "" ∨ sector = "" then shifts
  else if employees.any (fun emp => emp.code = employee_code) then
    DataManager.update_shift shifts shift_id ⟨date, period, employee_code, sector, chief_name⟩
  else shifts

/-- The update_roster scan: index of the first shift whose employee_code and
date both match (`for i, shift in enumerate(shifts): ... break`). -/
def findShiftIdx : List Shift → String → String → Option Nat
  | [], _, _ => none
  | s :: rest, employee_code, date =>
      if s.employee_code = employee_code ∧ s.date = date then some 0
      else (findShiftIdx rest employee_code date).map (· + 1)

/-- Route /roster/update: abort when month/employee_code/date is empty; find the
first existing shift for employee+date; if the period is non-empty and not the
off marker "O", replace that shift (or append a new one) with the fixed default
sector and empty chief name; otherwise delete the found shift if any.
No employee-existence check is performed. -/
def update_roster (shifts : List Shift) (month employee_code date period : String) :
    List Shift :=
  if month = "" ∨ employee_code = "" ∨ date = "" then shifts
  else
    match findShiftIdx shifts employee_code date with
    | some i =>
        if period ≠ "" ∧ period ≠ "O" then
          DataManager.update_shift shifts (i : Int) ⟨date, period, employee_code, "عام", ""⟩
        else
          DataManager.delete_shift shifts (i : Int)
    | none =>
        if period ≠ "" ∧ period ≠ "O" then
          DataManager.add_shift shifts ⟨date, period, employee_code, "عام", ""⟩
        else shifts

end App

/-- Zero-padded two-digit decimal rendering, as in `f"{n:02d}"` / strftime "%m", "%d". -/
def pad2 (n : Nat) : String := if n < 10 then "0" ++ toString n else toString n

/-- Zero-padded four-digit decimal rendering, as in `f"{n:04d}"` / strftime "%Y". -/
def pad4 (n : Nat) : String :=
  if n < 10 then "000" ++ toString n
  else if n < 100 then "00" ++ toString n
  else if n < 1000 then "0" ++ toString n
  else toString n

/-- Proleptic-Gregorian civil date from a day ordinal (epoch 1970-01-01 = 0);
the standard days-to-civil algorithm, matching datetime.date.fromordinal up to
the epoch shift. Returns (year, month, day). -/
def civilFromDays (z : Int) : Int × Nat × Nat :=
  let z2 := z + 719468
  let era := Int.fdiv z2 146097
  let doe := (z2 - era * 146097).toNat
  let yoe := (doe - doe / 1460 + doe / 36524 - doe / 146096) / 365
  let y := era * 400 + (yoe : Int)
  let doy := doe - (365 * yoe + yoe / 4 - yoe / 100)
  let mp := (5 * doy + 2) / 153
  let d := doy - (153 * mp + 2) / 5 + 1
  let m := if mp < 10 then mp + 3 else mp - 9
  (if m ≤ 2 then y + 1 else y, m, d)

/-- Day ordinal (epoch 1970-01-01 = 0) of a proleptic-Gregorian civil date;
inverse of civilFromDays, matching datetime.date.toordinal up to the epoch
shift. -/
def daysFromCivil (y : Int) (m d : Nat) : Int :=
  let y2 := if m ≤ 2 then y - 1 else y
  let era := Int.fdiv y2 400
  let yoe := (y2 - era * 400).toNat
  let mp := if 2 < m then m - 3 else m + 9
  let doy := (153 * mp + 2) / 5 + d - 1
  let doe := yoe * 365 + yoe / 4 - yoe / 100 + doy
  era * 146097 + (doe : Int) - 719468

/-- strftime("%Y-%m-%d") of the day with the given ordinal. -/
def fmtOrd (z : Int) : String :=
  let c := civilFromDays z
  pad4 c.1.toNat ++ "-" ++ pad2 c.2.1 ++ "-" ++ pad2 c.2.2

/-- One point of the dashboard 30-day chart: a literal date string and the
count of shifts on that date. -/
structure ChartPoint where
  date : String
  count : Nat
deriving DecidableEq, Repr

/-- Python str.startswith on the underlying character lists. -/
def listIsPre : List Char → List Char → Bool
  | [], _ => true
  | _ :: _, [] => false
  | a :: as, b :: bs => a = b && listIsPre as bs

/-- s.startswith(p) for strings. -/
def strStartsWith (s p : String) : Bool := listIsPre p.data s.data

/-- First-match lookup in an insertion-ordered association list, modelling
Python dict subscripting (dicts never hold duplicate keys, so first match is
the match). -/
def dictGet {α : Type} : List (String × α) → String → Option α
  | [], _ => none
  | (k, v) :: rest, key => if k = key then some v else dictGet rest key

/-- Python dict assignment d[key] = val: replace in place if the key exists
(keeping its insertion position), else append. -/
def dictSet {α : Type} : List (String × α) → String → α → List (String × α)
  | [], key, val => [(key, val)]
  | (k, v) :: rest, key, val =>
      if k = key then (key, val) :: rest else (k, v) :: dictSet rest key val

/-- Python `key in d`. -/
def dictMem {α : Type} (d : List (String × α)) (key : String) : Bool :=
  (dictGet d key).isSome

/-- One value of the roster_data dict in src/app.py roster: employee name, the
per-day shifts dict, and the accumulated total hours. -/
structure RosterRow where
  name : String
  shifts : List (String × String)
  total_hours : Nat
deriving DecidableEq, Repr

namespace App

/-- calendar.isleap. -/
def isLeap (year : Nat) : Bool := year % 4 = 0 && (year % 100 ≠ 0 || year % 400 = 0)

/-- Days-in-month table of calendar.monthrange (mdays plus the February leap
adjustment). -/
def daysInMonth (year month : Nat) : Nat :=
  if month = 2 then (if isLeap year then 29 else 28)
  else if month = 4 ∨ month = 6 ∨ month = 9 ∨ month = 11 then 30
  else 31

/-- The "YYYY-MM" month string the roster page works with. -/
def monthStr (year month : Nat) : String := pad4 year ++ "-" ++ pad2 month

/-- The day strings f"{year:04d}-{month_num:02d}-{day:02d}" of the roster. -/
def formatDay (year month day : Nat) : String :=
  pad4 year ++ "-" ++ pad2 month ++ "-" ++ pad2 day

/-- The `days` list of src/app.py roster: one formatted string per day
1..days_in_month. -/
def roster_days (year month : Nat) : List String :=
  (List.range' 1 (daysInMonth year month)).map (formatDay year month)

/-- The month filter of the roster page:
[s for s in shifts if s['date'].startswith(month)]. -/
def month_shifts (shifts : List Shift) (month : String) : List Shift :=
  shifts.filter (fun s => strStartsWith s.date month)

/-- Hours table of src/app.py roster: {'D': 12, 'N': 12, 'F': 24}.get(period, 0). -/
def periodHours (period : String) : Nat :=
  if period = "D" then 12 else if period = "N" then 12
  else if period = "F" then 24 else 0

/-- The shifts dict of a fresh roster row: every generated day mapped to ''. -/
def daysDict (days : List String) : List (String × String) :=
  days.foldl (fun d day => dictSet d day "") []

/-- A fresh roster_data value for one employee: name, empty cells, zero hours. -/
def initRow (nm : String) (days : List String) : RosterRow := ⟨nm, daysDict days, 0⟩

/-- The employee-initialisation loop of src/app.py roster: for each employee in
order, roster_data[emp['code']] = fresh row (a later duplicate code replaces
the earlier entry, as in a Python dict). -/
def initRoster (employees : List Employee) (days : List String) :
    List (String × RosterRow) :=
  employees.foldl (fun r emp => dictSet r emp.code (initRow emp.name days)) []

/-- The per-shift roster row mutation: when the shift's date is a key of the
row's shifts dict, write the period into that cell and add the period's hours. -/
def applyRow (row : RosterRow) (s : Shift) : RosterRow :=
  if dictMem row.shifts s.date then
    { name := row.name,
      shifts := dictSet row.shifts s.date s.period,
      total_hours := row.total_hours + periodHours s.period }
  else row

/-- The fill-in loop body of src/app.py roster: if emp_code is a roster_data
key and the date is a key of that row's shifts dict, update the row. -/
def applyShift (r : List (String × RosterRow)) (s : Shift) :
    List (String × RosterRow) :=
  match dictGet r s.employee_code with
  | some row =>
      if dictMem row.shifts s.date then dictSet r s.employee_code (applyRow row s)
      else r
  | none => r

/-- src/app.py roster: month filter, day enumeration, per-employee
initialisation, then the fill-in loop over the month's shifts in collection
order. -/
def roster_data (year month : Nat) (employees : List Employee) (shifts : List Shift) :
    List (String × RosterRow) :=
  (month_shifts shifts (monthStr year month)).foldl applyShift
    (initRoster employees (roster_days year month))

/-- The 30-day chart of src/app.py dashboard: start_date = today - 30 days,
then for i in range(30) append one point for start_date + i days, whose count
is the number of shifts whose date string equals that day's date string. -/
def chart_data (today : Int) (shifts : List Shift) : List ChartPoint :=
  (List.range 30).foldl
    (fun acc i =>
      let date_str := fmtOrd (today - 30 + (i : Int))
      acc ++ [⟨date_str, (shifts.filter (fun s => s.date = date_str)).length⟩])
    []

end App

/-- Period of the last shift in the list whose employee_code and date both
match, if any (spec-side description of the last-write-wins grid cell). -/
def lastMatchP : List Shift → String → String → Option String
  | [], _, _ => none
  | s :: rest, c, day =>
      match lastMatchP rest c day with
      | some p => some p
      | none => if s.employee_code = c ∧ s.date = day then some s.period else none

/-- Spec-side grid cell: the period of the shift latest in collection order for
that employee and date, or "" if none. -/
def gridCell (shifts : List Shift) (c day : String) : String :=
  (lastMatchP shifts c day).getD ""

/-- Period of the last shift in the list whose date matches, if any. -/
def lastDateP : List Shift → String → Option String
  | [], _ => none
  | s :: rest, day =>
      match lastDateP rest day with
      | some p => some p
      | none => if s.date = day then some s.period else none

/-- Number of shift records carrying exactly this date string. -/
def countOnDate (shifts : List Shift) (d : String) : Nat :=
  (shifts.filter (fun s => s.date = d)).length

/-- Number of shift records for employee c with period p dated on one of the
given day strings. -/
def countShiftsOn (shifts : List Shift) (c p : String) (days : List String) : Nat :=
  (shifts.filter (fun s => s.employee_code = c ∧ s.period = p ∧ s.date ∈ days)).length

/-- Number of shift records for employee c on date d. -/
def countMatches (shifts : List Shift) (c d : String) : Nat :=
  (shifts.filter (fun s => s.employee_code = c ∧ s.date = d)).length

/-- Hours accumulated by the roster fill-in loop over a shift list, relative to
a fixed shifts dict supplying the date-key test. -/
def hoursSumD (dict : List (String × String)) : List Shift → Nat
  | [] => 0
  | s :: rest =>
      (if dictMem dict s.date then App.periodHours s.period else 0) + hoursSumD dict rest

/-- The cell of a roster_data dict at an employee code and day, when present. -/
def cellOf (r : List (String × RosterRow)) (c day : String) : Option (Option String) :=
  (dictGet r c).map (fun row => dictGet row.shifts day)

/-- The total_hours of a roster_data dict at an employee code, when present. -/
def hoursOf (r : List (String × RosterRow)) (c : String) : Option Nat :=
  (dictGet r c).map RosterRow.total_hours

/-- Sanity anchors for the calendar embedding: the epoch formats as 1970-01-01,
and the day before 2024-03-01 is the leap day 2024-02-29 while the day before
2023-03-01 is 2023-02-28. -/
lemma fmtOrd_calendar_anchors :
    fmtOrd 0 = "1970-01-01" ∧
    fmtOrd (daysFromCivil 2024 3 1 - 1) = "2024-02-29" ∧
    fmtOrd (daysFromCivil 2023 3 1 - 1) = "2023-02-28" ∧
    fmtOrd (daysFromCivil 2024 1 1 - 1) = "2023-12-31" := by
  exact ⟨by decide, by decide, by decide, by decide⟩

lemma foldl_append_map {α β : Type} (f : α → β) (L : List α) (acc : List β) :
    L.foldl (fun acc x => acc ++ [f x]) acc = acc ++ L.map f := by
  induction L generalizing acc with
  | nil => simp
  | cons x rest ih => simp [ih]

lemma chart_data_eq_map (today : Int) (shifts : List Shift) :
    App.chart_data today shifts =
      (List.range 30).map (fun i =>
        ⟨fmtOrd (today - 30 + (i : Int)),
         (shifts.filter (fun s => s.date = fmtOrd (today - 30 + (i : Int)))).length⟩) := by
  unfold App.chart_data
  simpa using foldl_append_map
    (fun i : Nat =>
      (⟨fmtOrd (today - 30 + (i : Int)),
        (shifts.filter (fun s => s.date = fmtOrd (today - 30 + (i : Int)))).length⟩ : ChartPoint))
    (List.range 30) []

/-- Claim C1 (amended): the dashboard 30-day series always has exactly 30
points; the i-th point (0-based, so ordered oldest-to-newest) carries the
date string of the day `today - 30 + i` — hence the series covers the 30
calendar days ending YESTERDAY, today excluded — and each point's count
equals the number of shift records whose date string equals that point's
date string. -/
theorem C1_chart_series (today : Int) (shifts : List Shift) :
    (App.chart_data today shifts).length = 30 ∧
    ∀ i : Nat, i < 30 →
      (App.chart_data today shifts)[i]? =
        some ⟨fmtOrd (today - 30 + (i : Int)),
              countOnDate shifts (fmtOrd (today - 30 + (i : Int)))⟩ := by
  rw [chart_data_eq_map]
  constructor
  · simp
  · intro i hi
    rw [List.getElem?_map, List.getElem?_range hi]
    rfl

theorem C1_chart_series_witness :
    (App.chart_data 0 []).length = 30 ∧
    (App.chart_data 0 [])[0]? =
      some ⟨fmtOrd (0 - 30 + (0 : Int)), countOnDate [] (fmtOrd (0 - 30 + (0 : Int)))⟩ :=
  ⟨(C1_chart_series 0 []).1, (C1_chart_series 0 []).2 0 (by decide)⟩

/-- Claim C1 as stated is false: with today = 2024-03-15 and no shifts, the
series has 30 points but none of them carries today's date string, so it does
not cover the 30 calendar days ending today (inclusive). -/
theorem C1_chart_series_cex :
    (App.chart_data (daysFromCivil 2024 3 15) []).length = 30 ∧
    fmtOrd (daysFromCivil 2024 3 15) = "2024-03-15" ∧
    ∀ pt ∈ App.chart_data (daysFromCivil 2024 3 15) [], pt.date ≠ "2024-03-15" := by
  exact ⟨by decide, by decide, by decide⟩

lemma update_employee_map_code (l : List Employee) (code name phone role : String) :
    (DataManager.update_employee l code ⟨code, name, phone, role⟩).map Employee.code
      = l.map Employee.code := by
  induction l with
  | nil => rfl
  | cons e rest ih =>
    by_cases h : e.code = code
    · simp [DataManager.update_employee, h]
    · simp [DataManager.update_employee, h, ih]

lemma update_ambulance_map_plate (l : List Ambulance)
    (plate model status last_service notes : String) :
    (DataManager.update_ambulance l plate ⟨plate, model, status, last_service, notes⟩).map
        Ambulance.plate = l.map Ambulance.plate := by
  induction l with
  | nil => rfl
  | cons a rest ih =>
    by_cases h : a.plate = plate
    · simp [DataManager.update_ambulance, h]
    · simp [DataManager.update_ambulance, h, ih]

lemma nodup_append_singleton {α : Type} {l : List α} {a : α}
    (h : l.Nodup) (ha : a ∉ l) : (l ++ [a]).Nodup :=
  List.nodup_append_comm.mp (List.nodup_cons.mpr ⟨ha, h⟩)

/-- Claim C4: starting from collections with pairwise-distinct employee codes /
vehicle plates, every add/edit/delete endpoint on those collections produces a
collection whose codes / plates are still pairwise distinct (the edit endpoints
take the natural key from the URL path and write it back unchanged). -/
theorem C4_natural_key_unique
    (employees : List Employee) (ambulances : List Ambulance)
    (code name phone role plate model status last_service notes ecode aplate : String)
    (he : (employees.map Employee.code).Nodup)
    (ha : (ambulances.map Ambulance.plate).Nodup) :
    ((App.add_employee employees code name phone role).map Employee.code).Nodup ∧
    ((App.edit_employee employees code name phone role).map Employee.code).Nodup ∧
    ((DataManager.delete_employee employees ecode).map Employee.code).Nodup ∧
    ((App.add_ambulance ambulances plate model status last_service notes).map
        Ambulance.plate).Nodup ∧
    ((App.edit_ambulance ambulances plate model status last_service notes).map
        Ambulance.plate).Nodup ∧
    ((DataManager.delete_ambulance ambulances aplate).map Ambulance.plate).Nodup := by
  refine ⟨?_, ?_, ?_, ?_, ?_, ?_⟩
  · unfold App.add_employee
    by_cases h1 : code = "" ∨ name = "" ∨ phone = "" ∨ role = ""
    · simpa [h1]
    · by_cases h2 : employees.any (fun emp => emp.code = code) = true
      · simpa [h1, h2]
      · have hnotin : code ∉ employees.map Employee.code := by
          intro hmem
          rcases List.mem_map.mp hmem with ⟨e, hel, hcode⟩
          exact h2 (List.any_eq_true.mpr ⟨e, hel, by simp [hcode]⟩)
        simpa [h1, h2, DataManager.add_employee] using nodup_append_singleton he hnotin
  · unfold App.edit_employee
    by_cases h1 : name = "" ∨ phone = "" ∨ role = ""
    · simpa [h1]
    · simpa [h1, update_employee_map_code]
  · exact he.sublist ((List.filter_sublist employees).map Employee.code)
  · unfold App.add_ambulance
    by_cases h1 : plate = "" ∨ model = "" ∨ status = ""
    · simpa [h1]
    · by_cases h2 : ambulances.any (fun amb => amb.plate = plate) = true
      · simpa [h1, h2]
      · have hnotin : plate ∉ ambulances.map Ambulance.plate := by
          intro hmem
          rcases List.mem_map.mp hmem with ⟨a, hal, hplate⟩
          exact h2 (List.any_eq_true.mpr ⟨a, hal, by simp [hplate]⟩)
        simpa [h1, h2, DataManager.add_ambulance] using nodup_append_singleton ha hnotin
  · unfold App.edit_ambulance
    by_cases h1 : model = "" ∨ status = ""
    · simpa [h1]
    · simpa [h1, update_ambulance_map_plate]
  · exact ha.sublist ((List.filter_sublist _).map _)

theorem C4_natural_key_unique_witness :
    ((App.add_employee [⟨"E1", "A", "1", "r"⟩] "E2" "B" "2" "r").map Employee.code).Nodup :=
  (C4_natural_key_unique [⟨"E1", "A", "1", "r"⟩] [] "E2" "B" "2" "r" "P1" "m" "ok" "" ""
    "E1" "P1" (by decide) (by decide)).1

/-- Claim C5 (amended): the add-shift and edit-shift endpoints abort with the
shift collection unchanged whenever the given employee code matches no
employee; the roster update endpoint performs no such check (see the
counterexample) and is therefore excluded. -/
theorem C5_shift_fk_abort (employees : List Employee) (shifts : List Shift)
    (shift_id : Int) (date period employee_code sector chief_name : String)
    (h : ∀ e ∈ employees, e.code ≠ employee_code) :
    App.add_shift employees shifts date period employee_code sector chief_name = shifts ∧
    App.edit_shift employees shifts shift_id date period employee_code sector chief_name
      = shifts := by
  have hany : employees.any (fun emp => emp.code = employee_code) = false := by
    rw [Bool.eq_false_iff]
    intro hx
    rcases List.any_eq_true.mp hx with ⟨e, he, hc⟩
    exact h e he (by simpa using hc)
  constructor
  · unfold App.add_shift
    simp [hany]
  · unfold App.edit_shift
    simp [hany]

theorem C5_shift_fk_abort_witness :
    App.add_shift [⟨"E1", "A", "1", "r"⟩] [] "2024-03-01" "D" "E2" "s" "" = [] ∧
    App.edit_shift [⟨"E1", "A", "1", "r"⟩] [] 0 "2024-03-01" "D" "E2" "s" "" = [] :=
  C5_shift_fk_abort [⟨"E1", "A", "1", "r"⟩] [] 0 "2024-03-01" "D" "E2" "s" "" (by decide)

/-- Claim C5 as stated is false: the roster update endpoint stores a shift for
employee code "X" even though the employee collection is empty, so not every
shift-writing endpoint aborts on an unknown employee code. -/
theorem C5_shift_fk_cex :
    (∀ e ∈ ([] : List Employee), e.code ≠ "X") ∧
    App.update_roster [] "2024-03" "X" "2024-03-01" "D" ≠ ([] : List Shift) := by
  exact ⟨by simp, by decide⟩

lemma findShiftIdx_lt {L : List Shift} {c d : String} {i : Nat}
    (h : App.findShiftIdx L c d = some i) : i < L.length := by
  induction L generalizing i with
  | nil => exact Option.noConfusion h
  | cons s rest ih =>
    unfold App.findShiftIdx at h
    by_cases hm : s.employee_code = c ∧ s.date = d
    · rw [if_pos hm] at h
      cases h
      simp
    · rw [if_neg hm] at h
      cases hr : App.findShiftIdx rest c d with
      | none => rw [hr] at h; simp at h
      | some j =>
        rw [hr] at h
        have h2 : j + 1 = i := by simpa using h
        have h3 := ih hr
        simp only [List.length_cons]
        omega

lemma count_eraseIdx_findShiftIdx {L : List Shift} {c d : String} {i : Nat}
    (h : App.findShiftIdx L c d = some i) :
    countMatches (L.eraseIdx i) c d + 1 = countMatches L c d := by
  induction L generalizing i with
  | nil => exact Option.noConfusion h
  | cons s rest ih =>
    unfold App.findShiftIdx at h
    by_cases hm : s.employee_code = c ∧ s.date = d
    · rw [if_pos hm] at h
      cases h
      simp [countMatches, List.filter_cons, hm]
    · rw [if_neg hm] at h
      cases hr : App.findShiftIdx rest c d with
      | none => rw [hr] at h; simp at h
      | some j =>
        rw [hr] at h
        have h2 : j + 1 = i := by simpa using h
        subst h2
        simpa [countMatches, List.eraseIdx_cons_succ, List.filter_cons, hm] using ih hr

lemma findShiftIdx_none_of_countMatches {L : List Shift} {c d : String}
    (h : countMatches L c d = 0) : App.findShiftIdx L c d = none := by
  induction L with
  | nil => rfl
  | cons s rest ih =>
    unfold App.findShiftIdx
    by_cases hm : s.employee_code = c ∧ s.date = d
    · exfalso
      simp [countMatches, List.filter_cons, hm] at h
    · rw [if_neg hm, ih (by simpa [countMatches, List.filter_cons, hm] using h)]
      rfl

/-- Claim C6 (amended): when month, employee code and date are non-empty, the
period is the off marker "O" or empty, and an existing shift for that
employee+date is found at index i (first match by linear scan), the roster
upsert removes exactly that record: the result is the collection with index i
erased, one record shorter, with one fewer employee+date match. Repeating the
upsert leaves the collection unchanged PROVIDED the collection held at most
one shift for that employee+date; with duplicates the second call removes
another record (see the counterexample). -/
theorem C6_off_upsert (shifts : List Shift) (month c d p : String)
    (hm : month ≠ "") (hc : c ≠ "") (hd : d ≠ "") (hp : p = "O" ∨ p = "") :
    (∀ i, App.findShiftIdx shifts c d = some i →
      App.update_roster shifts month c d p = shifts.eraseIdx i ∧
      (App.update_roster shifts month c d p).length + 1 = shifts.length ∧
      countMatches (App.update_roster shifts month c d p) c d + 1
        = countMatches shifts c d) ∧
    (countMatches shifts c d ≤ 1 →
      App.update_roster (App.update_roster shifts month c d p) month c d p
        = App.update_roster shifts month c d p) := by
  have hper : ¬(p ≠ "" ∧ p ≠ "O") := by rcases hp with h | h <;> simp [h]
  have hguard : ¬(month = "" ∨ c = "" ∨ d = "") := by simp [hm, hc, hd]
  have hres : ∀ i, App.findShiftIdx shifts c d = some i →
      App.update_roster shifts month c d p = shifts.eraseIdx i := by
    intro i hfind
    have hi := findShiftIdx_lt hfind
    unfold App.update_roster
    rw [if_neg hguard, hfind]
    simp only [if_neg hper]
    unfold DataManager.delete_shift
    rw [if_pos ⟨Int.natCast_nonneg i, by exact_mod_cast hi⟩]
    simp
  constructor
  · intro i hfind
    have h1 := hres i hfind
    have hi := findShiftIdx_lt hfind
    refine ⟨h1, ?_, ?_⟩
    · rw [h1, List.length_eraseIdx_of_lt hi]
      omega
    · rw [h1]
      exact count_eraseIdx_findShiftIdx hfind
  · intro hcount
    cases hfind : App.findShiftIdx shifts c d with
    | none =>
      have h1 : App.update_roster shifts month c d p = shifts := by
        unfold App.update_roster
        rw [if_neg hguard, hfind, if_neg hper]
      rw [h1, h1]
    | some i =>
      have h1 := hres i hfind
      have hc0 : countMatches (shifts.eraseIdx i) c d = 0 := by
        have := count_eraseIdx_findShiftIdx hfind
        omega
      have h2 : App.findShiftIdx (shifts.eraseIdx i) c d = none :=
        findShiftIdx_none_of_countMatches hc0
      rw [h1]
      unfold App.update_roster
      rw [if_neg hguard, h2, if_neg hper]

theorem C6_off_upsert_witness :
    App.update_roster [⟨"2024-03-01", "D", "E1", "X", ""⟩] "2024-03" "E1" "2024-03-01" "O"
      = ([⟨"2024-03-01", "D", "E1", "X", ""⟩] : List Shift).eraseIdx 0 :=
  ((C6_off_upsert [⟨"2024-03-01", "D", "E1", "X", ""⟩] "2024-03" "E1" "2024-03-01" "O"
    (by decide) (by decide) (by decide) (Or.inl rfl)).1 0 (by decide)).1

/-- Claim C6 as stated is false: with two identical shifts for employee "E1"
on 2024-03-01, the off-upsert does find an existing shift, yet repeating it is
not idempotent — the second call removes the remaining duplicate. -/
theorem C6_off_upsert_cex :
    (App.findShiftIdx [⟨"2024-03-01", "D", "E1", "X", ""⟩, ⟨"2024-03-01", "D", "E1", "X", ""⟩]
        "E1" "2024-03-01").isSome = true ∧
    App.update_roster
        (App.update_roster [⟨"2024-03-01", "D", "E1", "X", ""⟩, ⟨"2024-03-01", "D", "E1", "X", ""⟩]
          "2024-03" "E1" "2024-03-01" "O")
        "2024-03" "E1" "2024-03-01" "O"
      ≠ App.update_roster [⟨"2024-03-01", "D", "E1", "X", ""⟩, ⟨"2024-03-01", "D", "E1", "X", ""⟩]
          "2024-03" "E1" "2024-03-01" "O" := by
  exact ⟨by decide, by decide⟩

/-- Claim C7: whenever some existing employee already carries the submitted
code, the add-employee endpoint rejects the request and returns the employee
collection exactly unchanged. -/
theorem C7_duplicate_add_rejected (employees : List Employee)
    (code name phone role : String) (h : ∃ e ∈ employees, e.code = code) :
    App.add_employee employees code name phone role = employees := by
  have hany : employees.any (fun emp => emp.code = code) = true := by
    rcases h with ⟨e, he, hc⟩
    exact List.any_eq_true.mpr ⟨e, he, by simp [hc]⟩
  unfold App.add_employee
  by_cases h1 : code = "" ∨ name = "" ∨ phone = "" ∨ role = ""
  · simp [h1]
  · simp [h1, hany]

theorem C7_duplicate_add_rejected_witness :
    App.add_employee [⟨"E1", "A", "1", "r"⟩] "E1" "B" "2" "x" = [⟨"E1", "A", "1", "r"⟩] :=
  C7_duplicate_add_rejected [⟨"E1", "A", "1", "r"⟩] "E1" "B" "2" "x" (by decide)

/-- Claim C8: for shift, team and task collections, update and delete keyed by
a positional index outside [0, length) are silent no-ops: the collection is
returned exactly unchanged. -/
theorem C8_out_of_range_noop (shifts : List Shift) (teams : List Team)
    (tasks : List SupportTask) (i : Int) (s : Shift) (t : Team) (k : SupportTask)
    (hs : i < 0 ∨ (shifts.length : Int) ≤ i)
    (ht : i < 0 ∨ (teams.length : Int) ≤ i)
    (hk : i < 0 ∨ (tasks.length : Int) ≤ i) :
    DataManager.update_shift shifts i s = shifts ∧
    DataManager.delete_shift shifts i = shifts ∧
    DataManager.update_team teams i t = teams ∧
    DataManager.delete_team teams i = teams ∧
    DataManager.update_task tasks i k = tasks ∧
    DataManager.delete_task tasks i = tasks := by
  have Hs : ¬(0 ≤ i ∧ i < (shifts.length : Int)) := by rcases hs with h | h <;> omega
  have Ht : ¬(0 ≤ i ∧ i < (teams.length : Int)) := by rcases ht with h | h <;> omega
  have Hk : ¬(0 ≤ i ∧ i < (tasks.length : Int)) := by rcases hk with h | h <;> omega
  exact ⟨by simp [DataManager.update_shift, Hs], by simp [DataManager.delete_shift, Hs],
    by simp [DataManager.update_team, Ht], by simp [DataManager.delete_team, Ht],
    by simp [DataManager.update_task, Hk], by simp [DataManager.delete_task, Hk]⟩

theorem C8_out_of_range_noop_witness :
    DataManager.update_shift [] 3 ⟨"d", "D", "E1", "s", ""⟩ = [] ∧
    DataManager.delete_shift [] 3 = [] ∧
    DataManager.update_team [] 3 ⟨"d", "1", "0", "0", ""⟩ = [] ∧
    DataManager.delete_team [] 3 = [] ∧
    DataManager.update_task [] 3 ⟨"n", "t", "s", "c", ""⟩ = [] ∧
    DataManager.delete_task [] 3 = [] :=
  C8_out_of_range_noop [] [] [] 3 ⟨"d", "D", "E1", "s", ""⟩ ⟨"d", "1", "0", "0", ""⟩
    ⟨"n", "t", "s", "c", ""⟩ (by decide) (by decide) (by decide)

/-- Claim C9: when reading a stored collection fails — the file is missing or
its content does not decode — the corresponding getter returns the empty
collection instead of raising, for every entity type. -/
theorem C9_read_failure_empty (st : StoreState) :
    ((st.employees_file = .fileMissing ∨ st.employees_file = .undecodable) →
      DataManager.get_employees st = []) ∧
    ((st.ambulances_file = .fileMissing ∨ st.ambulances_file = .undecodable) →
      DataManager.get_ambulances st = []) ∧
    ((st.shifts_file = .fileMissing ∨ st.shifts_file = .undecodable) →
      DataManager.get_shifts st = []) ∧
    ((st.teams_file = .fileMissing ∨ st.teams_file = .undecodable) →
      DataManager.get_teams st = []) ∧
    ((st.tasks_file = .fileMissing ∨ st.tasks_file = .undecodable) →
      DataManager.get_tasks st = []) := by
  refine ⟨?_, ?_, ?_, ?_, ?_⟩ <;>
    · rintro (h | h) <;>
        simp [DataManager.get_employees, DataManager.get_ambulances,
          DataManager.get_shifts, DataManager.get_teams, DataManager.get_tasks,
          DataManager.load_json, h]

theorem C9_read_failure_empty_witness :
    DataManager.get_employees
      ⟨.fileMissing, .success [], .success [], .success [], .success []⟩ = [] :=
  (C9_read_failure_empty
    ⟨.fileMissing, .success [], .success [], .success [], .success []⟩).1 (Or.inl rfl)

/-- Claim C10: delete_employee removes every record whose code equals the given
code (duplicates included), keeps all other records — with their multiplicity —
in their original relative order (the result is a sublist of the input), and is
the identity when no record carries that code. -/
theorem C10_delete_employee_frame (employees : List Employee) (code : String) :
    (∀ e ∈ DataManager.delete_employee employees code, e.code ≠ code) ∧
    List.Sublist (DataManager.delete_employee employees code) employees ∧
    (∀ e : Employee, e.code ≠ code →
      (DataManager.delete_employee employees code).count e = employees.count e) ∧
    ((∀ e ∈ employees, e.code ≠ code) →
      DataManager.delete_employee employees code = employees) := by
  refine ⟨?_, ?_, ?_, ?_⟩
  · intro e he
    simpa using (List.mem_filter.mp he).2
  · exact List.filter_sublist _
  · intro e hne
    exact List.count_filter (by simpa using hne)
  · intro h
    apply List.filter_eq_self.mpr
    intro e he
    simpa using h e he

theorem C10_delete_employee_frame_witness :
    DataManager.delete_employee [⟨"E1", "A", "1", "r"⟩, ⟨"E2", "B", "2", "r"⟩] "E3"
      = [⟨"E1", "A", "1", "r"⟩, ⟨"E2", "B", "2", "r"⟩] :=
  (C10_delete_employee_frame [⟨"E1", "A", "1", "r"⟩, ⟨"E2", "B", "2", "r"⟩] "E3").2.2.2
    (by decide)

lemma dictGet_dictSet_self {α : Type} (d : List (String × α)) (k : String) (v : α) :
    dictGet (dictSet d k v) k = some v := by
  induction d with
  | nil => simp [dictSet, dictGet]
  | cons kv rest ih =>
    obtain ⟨pk, pv⟩ := kv
    by_cases h : pk = k
    · simp [dictSet, dictGet, h]
    · simp [dictSet, dictGet, h, ih]

lemma dictGet_dictSet_ne {α : Type} (d : List (String × α)) (k c : String) (v : α)
    (h : c ≠ k) : dictGet (dictSet d k v) c = dictGet d c := by
  have hkc : ¬k = c := fun hh => h hh.symm
  induction d with
  | nil => simp [dictSet, dictGet, hkc]
  | cons kv rest ih =>
    obtain ⟨pk, pv⟩ := kv
    by_cases hk : pk = k
    · subst hk
      simp [dictSet, dictGet, hkc]
    · by_cases hc : pk = c
      · simp [dictSet, dictGet, hk, hc, h]
      · simp [dictSet, dictGet, hk, hc, ih]

lemma dictMem_dictSet_stable {α : Type} (d : List (String × α)) (k c : String) (v : α)
    (hmem : dictMem d k = true) : dictMem (dictSet d k v) c = dictMem d c := by
  induction d with
  | nil => simp [dictMem, dictGet] at hmem
  | cons kv rest ih =>
    obtain ⟨pk, pv⟩ := kv
    by_cases hk : pk = k
    · subst hk
      by_cases hc : pk = c <;> simp [dictMem, dictSet, dictGet, hc]
    · have hmem2 : dictMem rest k = true := by
        simpa [dictMem, dictGet, hk] using hmem
      by_cases hc : pk = c
      · have hck : ¬c = k := hc ▸ hk
        simp [dictMem, dictSet, dictGet, hk, hc, hck]
      · simpa [dictMem, dictSet, dictGet, hk, hc] using ih hmem2

lemma dictMem_applyRow (row : RosterRow) (s : Shift) (k : String) :
    dictMem (App.applyRow row s).shifts k = dictMem row.shifts k := by
  unfold App.applyRow
  by_cases h : dictMem row.shifts s.date = true
  · simp [h, dictMem_dictSet_stable row.shifts s.date k s.period h]
  · simp [h]

lemma dictMem_foldl_applyRow (L : List Shift) (row : RosterRow) (k : String) :
    dictMem ((L.foldl App.applyRow row).shifts) k = dictMem row.shifts k := by
  induction L generalizing row with
  | nil => rfl
  | cons s rest ih => rw [List.foldl_cons, ih, dictMem_applyRow]

lemma dictGet_applyShift (r : List (String × RosterRow)) (s : Shift) (c : String) :
    dictGet (App.applyShift r s) c =
      if s.employee_code = c then (dictGet r c).map (fun row => App.applyRow row s)
      else dictGet r c := by
  unfold App.applyShift
  cases hr : dictGet r s.employee_code with
  | none =>
    by_cases hc : s.employee_code = c
    · subst hc
      simp [hr]
    · simp [hc]
  | some row =>
    by_cases hmem : dictMem row.shifts s.date = true
    · simp only [hmem, if_true]
      by_cases hc : s.employee_code = c
      · subst hc
        rw [dictGet_dictSet_self, hr]
        simp
      · rw [dictGet_dictSet_ne _ _ _ _ (fun h => hc h.symm)]
        simp [hc]
    · simp only [hmem, if_false]
      by_cases hc : s.employee_code = c
      · subst hc
        simp [App.applyRow, hmem, hr]
      · simp [hc]

lemma dictGet_foldl_applyShift (L : List Shift) (r : List (String × RosterRow)) (c : String) :
    dictGet (L.foldl App.applyShift r) c =
      (dictGet r c).map
        (fun row => (L.filter (fun s => s.employee_code = c)).foldl App.applyRow row) := by
  induction L generalizing r with
  | nil => cases h : dictGet r c <;> simp [h]
  | cons s rest ih =>
    rw [List.foldl_cons, ih, dictGet_applyShift]
    by_cases hc : s.employee_code = c
    · rw [if_pos hc, List.filter_cons_of_pos (by simp [hc])]
      cases h : dictGet r c <;> simp [h]
    · rw [if_neg hc, List.filter_cons_of_neg (by simp [hc])]

lemma dictGet_foldl_setEmpty (days : List String) (d0 : List (String × String))
    (day : String) :
    dictGet (days.foldl (fun d x => dictSet d x "") d0) day =
      if day ∈ days then some "" else dictGet d0 day := by
  induction days generalizing d0 with
  | nil => simp
  | cons x rest ih =>
    rw [List.foldl_cons, ih]
    by_cases hmem : day ∈ rest
    · simp [hmem]
    · by_cases hx : day = x
      · subst hx
        simp [hmem, dictGet_dictSet_self]
      · simp [hmem, hx, dictGet_dictSet_ne _ _ _ _ hx]

lemma dictGet_daysDict (days : List String) (day : String) :
    dictGet (App.daysDict days) day = if day ∈ days then some "" else none := by
  unfold App.daysDict
  rw [dictGet_foldl_setEmpty]
  rfl

lemma dictMem_daysDict (days : List String) (day : String) :
    dictMem (App.daysDict days) day = decide (day ∈ days) := by
  unfold dictMem
  rw [dictGet_daysDict]
  by_cases h : day ∈ days <;> simp [h]

lemma dictGet_initRoster_mem (employees : List Employee) (days : List String)
    (r0 : List (String × RosterRow)) (c : String)
    (h : (∃ e ∈ employees, e.code = c) ∨ ∃ nm, dictGet r0 c = some (App.initRow nm days)) :
    ∃ nm,
      dictGet
        (employees.foldl (fun r emp => dictSet r emp.code (App.initRow emp.name days)) r0) c
      = some (App.initRow nm days) := by
  induction employees generalizing r0 with
  | nil =>
    rcases h with ⟨e, he, _⟩ | h
    · exact absurd he (List.not_mem_nil e)
    · simpa using h
  | cons e rest ih =>
    rw [List.foldl_cons]
    apply ih
    by_cases hc : e.code = c
    · right
      refine ⟨e.name, ?_⟩
      rw [← hc]
      exact dictGet_dictSet_self r0 e.code (App.initRow e.name days)
    · rcases h with ⟨e2, he2, hc2⟩ | ⟨nm, hget⟩
      · rcases List.mem_cons.mp he2 with rfl | he2r
        · exact absurd hc2 hc
        · exact Or.inl ⟨e2, he2r, hc2⟩
      · right
        exact ⟨nm, by rw [dictGet_dictSet_ne _ _ _ _ (fun hh => hc hh.symm), hget]⟩

lemma dictGet_initRoster (employees : List Employee) (days : List String) (e : Employee)
    (he : e ∈ employees) :
    ∃ nm, dictGet (App.initRoster employees days) e.code = some (App.initRow nm days) := by
  unfold App.initRoster
  exact dictGet_initRoster_mem employees days [] e.code (Or.inl ⟨e, he, rfl⟩)

lemma lastDateP_cons (s : Shift) (rest : List Shift) (day : String) :
    lastDateP (s :: rest) day =
      match lastDateP rest day with
      | some p => some p
      | none => if s.date = day then some s.period else none := rfl

lemma dictGet_applyRow_self (row : RosterRow) (s : Shift)
    (hmem : dictMem row.shifts s.date = true) :
    dictGet (App.applyRow row s).shifts s.date = some s.period := by
  unfold App.applyRow
  simp only [hmem, if_true]
  exact dictGet_dictSet_self row.shifts s.date s.period

lemma dictGet_applyRow_ne (row : RosterRow) (s : Shift) (day : String)
    (hd : s.date ≠ day) :
    dictGet (App.applyRow row s).shifts day = dictGet row.shifts day := by
  unfold App.applyRow
  by_cases hmem : dictMem row.shifts s.date = true
  · simp only [hmem, if_true]
    exact dictGet_dictSet_ne row.shifts s.date day s.period (fun hh => hd hh.symm)
  · simp [hmem]

lemma dictGet_foldl_applyRow (L : List Shift) (row : RosterRow) (day : String)
    (hday : dictMem row.shifts day = true) :
    dictGet ((L.foldl App.applyRow row).shifts) day =
      match lastDateP L day with
      | some p => some p
      | none => dictGet row.shifts day := by
  induction L generalizing row with
  | nil => simp [lastDateP]
  | cons s rest ih =>
    rw [List.foldl_cons]
    have hday2 : dictMem (App.applyRow row s).shifts day = true := by
      rw [dictMem_applyRow]
      exact hday
    rw [ih _ hday2, lastDateP_cons]
    cases hl : lastDateP rest day with
    | some p => rfl
    | none =>
      by_cases hd : s.date = day
      · rw [if_pos hd]
        show dictGet (App.applyRow row s).shifts day = some s.period
        rw [← hd]
        exact dictGet_applyRow_self row s (hd ▸ hday)
      · rw [if_neg hd]
        show dictGet (App.applyRow row s).shifts day = dictGet row.shifts day
        exact dictGet_applyRow_ne row s day hd

lemma hoursSumD_congr (d1 d2 : List (String × String)) (L : List Shift)
    (h : ∀ k, dictMem d1 k = dictMem d2 k) : hoursSumD d1 L = hoursSumD d2 L := by
  induction L with
  | nil => rfl
  | cons s rest ih => simp [hoursSumD, h s.date, ih]

lemma hoursSumD_cons (dict : List (String × String)) (s : Shift) (rest : List Shift) :
    hoursSumD dict (s :: rest) =
      (if dictMem dict s.date then App.periodHours s.period else 0) + hoursSumD dict rest :=
  rfl

lemma total_hours_foldl_applyRow (L : List Shift) (row : RosterRow) :
    (L.foldl App.applyRow row).total_hours = row.total_hours + hoursSumD row.shifts L := by
  induction L generalizing row with
  | nil => simp [hoursSumD]
  | cons s rest ih =>
    rw [List.foldl_cons, ih, hoursSumD_cons]
    by_cases hmem : dictMem row.shifts s.date = true
    · unfold App.applyRow
      simp only [hmem, if_true]
      rw [hoursSumD_congr (dictSet row.shifts s.date s.period) row.shifts rest
        (fun k => dictMem_dictSet_stable row.shifts s.date k s.period hmem)]
      omega
    · unfold App.applyRow
      simp [hmem]

lemma hoursSumD_eq_counts (dict : List (String × String)) (L : List Shift) :
    hoursSumD dict L =
      12 * (L.filter (fun s => dictMem dict s.date ∧ s.period = "D")).length +
      12 * (L.filter (fun s => dictMem dict s.date ∧ s.period = "N")).length +
      24 * (L.filter (fun s => dictMem dict s.date ∧ s.period = "F")).length := by
  induction L with
  | nil => simp [hoursSumD]
  | cons s rest ih =>
    rw [hoursSumD_cons, ih]
    by_cases hm : dictMem dict s.date = true
    · by_cases hD : s.period = "D"
      · simp only [List.filter_cons, hm, hD]
        simp [App.periodHours, hD]
        omega
      · by_cases hN : s.period = "N"
        · simp only [List.filter_cons, hm, hN]
          simp [App.periodHours, hN, hD]
          omega
        · by_cases hF : s.period = "F"
          · simp only [List.filter_cons, hm, hF]
            simp [App.periodHours, hF, hD, hN]
            omega
          · simp [List.filter_cons, hm, hD, hN, hF, App.periodHours]
    · simp [List.filter_cons, hm]

lemma listIsPre_append (as bs : List Char) : listIsPre as (as ++ bs) = true := by
  induction as with
  | nil => rfl
  | cons a arest ih => simp [listIsPre, ih]

lemma strStartsWith_append (p r : String) : strStartsWith (p ++ r) p = true := by
  unfold strStartsWith
  rw [String.data_append]
  exact listIsPre_append p.data r.data

lemma roster_day_startsWith (y m : Nat) (day : String) (h : day ∈ App.roster_days y m) :
    strStartsWith day (App.monthStr y m) = true := by
  rcases List.mem_map.mp h with ⟨d, _, rfl⟩
  show strStartsWith (App.formatDay y m d) (App.monthStr y m) = true
  unfold App.formatDay App.monthStr
  rw [String.append_assoc (pad4 y ++ "-" ++ pad2 m) "-" (pad2 d)]
  exact strStartsWith_append (pad4 y ++ "-" ++ pad2 m) ("-" ++ pad2 d)

lemma lastMatchP_cons (s : Shift) (rest : List Shift) (c day : String) :
    lastMatchP (s :: rest) c day =
      match lastMatchP rest c day with
      | some p => some p
      | none => if s.employee_code = c ∧ s.date = day then some s.period else none := rfl

lemma lastMatchP_filter_keep (shifts : List Shift) (pred : Shift → Bool) (c day : String)
    (h : ∀ s : Shift, s.date = day → pred s = true) :
    lastMatchP (shifts.filter pred) c day = lastMatchP shifts c day := by
  induction shifts with
  | nil => rfl
  | cons s rest ih =>
    rw [List.filter_cons]
    by_cases hp : pred s = true
    · rw [if_pos hp, lastMatchP_cons, lastMatchP_cons, ih]
    · rw [if_neg hp, lastMatchP_cons, ih]
      have hd : ¬(s.employee_code = c ∧ s.date = day) := fun hh => hp (h s hh.2)
      rw [if_neg hd]
      cases lastMatchP rest c day <;> rfl

lemma lastMatchP_eq_lastDateP_filter (shifts : List Shift) (c day : String) :
    lastMatchP shifts c day
      = lastDateP (shifts.filter (fun s => s.employee_code = c)) day := by
  induction shifts with
  | nil => rfl
  | cons s rest ih =>
    rw [lastMatchP_cons, ih, List.filter_cons]
    by_cases hc : s.employee_code = c
    · rw [if_pos (show decide (s.employee_code = c) = true by simp [hc]), lastDateP_cons]
      cases lastDateP (rest.filter (fun s => s.employee_code = c)) day with
      | some p => rfl
      | none =>
        show (if s.employee_code = c ∧ s.date = day then some s.period else none)
          = if s.date = day then some s.period else none
        by_cases hd : s.date = day <;> simp [hc, hd]
    · rw [if_neg (show ¬decide (s.employee_code = c) = true by simp [hc])]
      cases lastDateP (rest.filter (fun s => s.employee_code = c)) day with
      | some p => rfl
      | none =>
        show (if s.employee_code = c ∧ s.date = day then some s.period else none) = none
        simp [hc]

lemma count_filter_bridge (y m : Nat) (shifts : List Shift) (c p : String) :
    (((App.month_shifts shifts (App.monthStr y m)).filter
        (fun s => s.employee_code = c)).filter
        (fun s => dictMem (App.daysDict (App.roster_days y m)) s.date ∧ s.period = p)).length
      = countShiftsOn shifts c p (App.roster_days y m) := by
  unfold countShiftsOn App.month_shifts
  rw [List.filter_filter, List.filter_filter]
  congr 1
  apply List.filter_congr
  intro s _
  by_cases hmem : s.date ∈ App.roster_days y m
  · have hsw := roster_day_startsWith y m s.date hmem
    by_cases hc : s.employee_code = c <;> by_cases hp2 : s.period = p <;>
      simp [hc, hp2, hmem, hsw, dictMem_daysDict]
  · simp [hmem, dictMem_daysDict]

/-- Claim C2: for every valid month, the roster enumerates exactly
daysInMonth-many day strings (the Gregorian 28/29/30/31 rule, leap years
included), and every employee of the collection has a roster row carrying an
entry for every enumerated day, each entry equal to the period of the shift
latest in collection order for that employee and that date — or the empty
string when there is none. -/
theorem C2_roster_grid (y m : Nat) (hm1 : 1 ≤ m) (hm2 : m ≤ 12)
    (employees : List Employee) (shifts : List Shift) :
    (App.roster_days y m).length = App.daysInMonth y m ∧
    ∀ e ∈ employees, ∃ row,
      dictGet (App.roster_data y m employees shifts) e.code = some row ∧
      ∀ day ∈ App.roster_days y m,
        dictGet row.shifts day = some (gridCell shifts e.code day) := by
  constructor
  · simp [App.roster_days]
  · intro e he
    obtain ⟨nm, hinit⟩ := dictGet_initRoster employees (App.roster_days y m) e he
    unfold App.roster_data
    rw [dictGet_foldl_applyShift, hinit]
    refine ⟨_, rfl, ?_⟩
    intro day hday
    have hmem : dictMem (App.initRow nm (App.roster_days y m)).shifts day = true := by
      show dictMem (App.daysDict (App.roster_days y m)) day = true
      rw [dictMem_daysDict]
      simpa using hday
    rw [dictGet_foldl_applyRow _ _ _ hmem]
    rw [← lastMatchP_eq_lastDateP_filter]
    have hbridge : lastMatchP (App.month_shifts shifts (App.monthStr y m)) e.code day
        = lastMatchP shifts e.code day := by
      unfold App.month_shifts
      exact lastMatchP_filter_keep shifts _ e.code day
        (fun s hs => by rw [hs]; exact roster_day_startsWith y m day hday)
    rw [hbridge]
    unfold gridCell
    cases hl : lastMatchP shifts e.code day with
    | some q => simp
    | none =>
      show dictGet (App.initRow nm (App.roster_days y m)).shifts day
        = some (Option.getD none "")
      show dictGet (App.daysDict (App.roster_days y m)) day = some (Option.getD none "")
      rw [dictGet_daysDict]
      simp [hday]

/-- Claim C3: for every employee of the collection and every valid month, the
roster total hours for that employee equal 12 times the day-period shift
records plus 12 times the night-period records plus 24 times the full-day
records among the shift records for that employee dated on one of that month's
calendar days; other period codes contribute nothing. -/
theorem C3_roster_hours (y m : Nat) (hm1 : 1 ≤ m) (hm2 : m ≤ 12)
    (employees : List Employee) (shifts : List Shift) (e : Employee) (he : e ∈ employees) :
    ∃ row, dictGet (App.roster_data y m employees shifts) e.code = some row ∧
      row.total_hours =
        12 * countShiftsOn shifts e.code "D" (App.roster_days y m) +
        12 * countShiftsOn shifts e.code "N" (App.roster_days y m) +
        24 * countShiftsOn shifts e.code "F" (App.roster_days y m) := by
  obtain ⟨nm, hinit⟩ := dictGet_initRoster employees (App.roster_days y m) e he
  unfold App.roster_data
  rw [dictGet_foldl_applyShift, hinit]
  refine ⟨_, rfl, ?_⟩
  rw [total_hours_foldl_applyRow]
  show 0 + hoursSumD (App.daysDict (App.roster_days y m)) _ = _
  rw [Nat.zero_add, hoursSumD_eq_counts, count_filter_bridge, count_filter_bridge,
    count_filter_bridge]

theorem C2_roster_grid_witness :
    cellOf (App.roster_data 2024 2 [⟨"E1", "A", "1", "r"⟩]
        [⟨"2024-02-03", "D", "E1", "s", "c"⟩]) "E1" "2024-02-03"
      = some (some (gridCell [⟨"2024-02-03", "D", "E1", "s", "c"⟩] "E1" "2024-02-03")) := by
  obtain ⟨row, h1, h2⟩ :=
    (C2_roster_grid 2024 2 (by decide) (by decide) [⟨"E1", "A", "1", "r"⟩]
      [⟨"2024-02-03", "D", "E1", "s", "c"⟩]).2 ⟨"E1", "A", "1", "r"⟩ (by decide)
  have h1x : dictGet (App.roster_data 2024 2 [⟨"E1", "A", "1", "r"⟩]
      [⟨"2024-02-03", "D", "E1", "s", "c"⟩]) "E1" = some row := h1
  have h2x := h2 "2024-02-03" (by decide)
  unfold cellOf
  simp [h1x, h2x]

theorem C3_roster_hours_witness :
    hoursOf (App.roster_data 2024 2 [⟨"E1", "A", "1", "r"⟩]
        [⟨"2024-02-03", "D", "E1", "s", "c"⟩]) "E1"
      = some (12 * countShiftsOn [⟨"2024-02-03", "D", "E1", "s", "c"⟩] "E1" "D"
            (App.roster_days 2024 2) +
          12 * countShiftsOn [⟨"2024-02-03", "D", "E1", "s", "c"⟩] "E1" "N"
            (App.roster_days 2024 2) +
          24 * countShiftsOn [⟨"2024-02-03", "D", "E1", "s", "c"⟩] "E1" "F"
            (App.roster_days 2024 2)) := by
  obtain ⟨row, h1, h2⟩ :=
    C3_roster_hours 2024 2 (by decide) (by decide) [⟨"E1", "A", "1", "r"⟩]
      [⟨"2024-02-03", "D", "E1", "s", "c"⟩] ⟨"E1", "A", "1", "r"⟩ (by decide)
  have h1x : dictGet (App.roster_data 2024 2 [⟨"E1", "A", "1", "r"⟩]
      [⟨"2024-02-03", "D", "E1", "s", "c"⟩]) "E1" = some row := h1
  unfold hoursOf
  simp [h1x, h2]
